import Mathlib

/-!
Verification development for the currency-safe money arithmetic subsystem of
django-shop (`shop/money/money_maker.py`).

The money classes produced by `MoneyMaker` inherit from Python's
`decimal.Decimal`, so the embedding first models the slice of the
`decimal` module that the money code reaches: finite values and quiet NaN
(the spec's data model for a MoneyValue is "an arbitrary-precision signed
decimal amount, or a distinguished undefined state (NaN)"), arithmetic in
the default context (precision 28, ROUND_HALF_EVEN, Emin = -999999,
Emax = 999999, traps on InvalidOperation and Overflow), quantization,
truncation to int, comparison, and the to-string / from-string conversions.
A finite decimal is a sign, a coefficient (the canonical `_int` digit
string, which carries no leading zeros, so a natural number is a faithful
representation; the zero coefficient prints as the one-character string
"0"), and an integer exponent.

On top of that sit the translations of `AbstractMoney`, `MoneyMaker` and
`_make_money` from `shop/money/money_maker.py`.
-/

namespace ShopMoney

/-- Precision of Python's default decimal context. -/
def prec : Nat := 28

/-- Emax of the default decimal context. -/
def Emax : Int := 999999

/-- Emin of the default decimal context. -/
def Emin : Int := -999999

/-- Etiny of the default context: Emin - prec + 1. -/
def Etiny : Int := Emin - prec + 1

/-- Etop of the default context: Emax - prec + 1. -/
def Etop : Int := Emax - prec + 1

/-- Errors surfaced by the embedded code.  Money-level failures are Python
`ValueError`s carrying a message; `invalidOperation` and `overflow` are the
decimal-context signals that the default context traps (raises);
`keyError` models a failed `CURRENCIES[...]` lookup. -/
inductive Err where
  | valueError (msg : String)
  | invalidOperation
  | overflow
  | keyError
deriving DecidableEq, Repr

/-- A Python `Decimal` value as the money subsystem uses it: finite
`(sign, coefficient, exponent)` with value `(-1)^sign * coeff * 10^exp`,
or a quiet NaN (the "undefined amount" sentinel).  `sign = true` means
negative. -/
inductive DecVal where
  | fin (sign : Bool) (coeff : Nat) (exp : Int)
  | nan
deriving DecidableEq, Repr

instance {ε α : Type} [DecidableEq ε] [DecidableEq α] : DecidableEq (Except ε α) :=
  fun a b =>
    match a, b with
    | Except.ok x, Except.ok y =>
      if h : x = y then Decidable.isTrue (by rw [h])
      else Decidable.isFalse (fun hcon => h (Except.ok.inj hcon))
    | Except.error x, Except.error y =>
      if h : x = y then Decidable.isTrue (by rw [h])
      else Decidable.isFalse (fun hcon => h (Except.error.inj hcon))
    | Except.ok _, Except.error _ => Decidable.isFalse (fun hcon => Except.noConfusion hcon)
    | Except.error _, Except.ok _ => Decidable.isFalse (fun hcon => Except.noConfusion hcon)

namespace DecVal

/-- Python `Decimal.is_nan()`. -/
def isNan : DecVal → Bool
  | nan => true
  | fin _ _ _ => false

end DecVal

/-- Recursion worker for `nDigits`: repeated division by 10; the fuel
argument only bounds the recursion depth and is never exhausted when it
starts at the number itself. -/
def nDigitsFuel : Nat → Nat → Nat
  | 0, _ => 1
  | fuel + 1, c => if c < 10 then 1 else nDigitsFuel fuel (c / 10) + 1

/-- Length of the canonical coefficient string `_int`: `len(str(c))`,
with the convention that the zero coefficient is the string "0". -/
def nDigits (c : Nat) : Nat := nDigitsFuel c c

theorem nDigitsFuel_eq_log {fuel c : Nat} (h : c ≤ fuel ∨ c < 10) :
    nDigitsFuel fuel c = Nat.log 10 c + 1 := by
  induction fuel generalizing c with
  | zero =>
    have hc : c < 10 := by omega
    rw [nDigitsFuel, Nat.log_eq_zero_iff.mpr (Or.inl hc)]
  | succ fuel ih =>
    by_cases hc : c < 10
    · rw [nDigitsFuel, if_pos hc, Nat.log_eq_zero_iff.mpr (Or.inl hc)]
    · push_neg at hc
      have hdiv : c / 10 < c := Nat.div_lt_self (by omega) (by norm_num)
      have hrec := ih (c := c / 10) (by omega)
      rw [nDigitsFuel, if_neg (by omega), hrec]
      have hlog : Nat.log 10 (c / 10) = Nat.log 10 c - 1 := Nat.log_div_base 10 c
      have hpos : 0 < Nat.log 10 c := Nat.log_pos (by norm_num) hc
      omega

theorem nDigits_eq_log (c : Nat) : nDigits c = Nat.log 10 c + 1 :=
  nDigitsFuel_eq_log (Or.inl le_rfl)

/-- Signed integer made of a Python sign bit and a coefficient. -/
def sInt (s : Bool) (c : Nat) : Int := (if s then -1 else 1) * c

/-- Rational value of a decimal. NaN is mapped to 0 (never used on NaN). -/
def dRatVal : DecVal → ℚ
  | DecVal.fin s c e => (sInt s c : ℚ) * (10 : ℚ) ^ e
  | DecVal.nan => 0

/-- Round a coefficient at `k` decimal digits from the low end with
ROUND_HALF_EVEN, the default context's rounding (Python
`_round_half_even` as invoked from `_fix` / `_rescale`): keep
`q = c / 10^k`, and round up when the remainder exceeds half an ulp, or
equals half with `q` odd. -/
def roundHalfEvenAt (c : Nat) (k : Nat) : Nat :=
  let q := c / 10 ^ k
  let r := c % 10 ^ k
  let half := 5 * 10 ^ (k - 1)
  if r > half ∨ (r = half ∧ q % 2 = 1) then q + 1 else q

/-- Python `Decimal._fix(context)` on a finite triple, default context:
clamp a zero's exponent into `[Etiny, Emax]`; otherwise round the
coefficient to at most `prec` digits (half-even) and signal Overflow -
which the default context traps, hence the error - when the adjusted
exponent leaves the representable range. -/
def dFix (s : Bool) (c : Nat) (e : Int) : Except Err DecVal :=
  if c = 0 then
    Except.ok (DecVal.fin s 0 (min (max e Etiny) Emax))
  else
    let expMin0 : Int := (nDigits c : Int) + e - prec
    if expMin0 > Etop then Except.error Err.overflow
    else
      let adj : Int := (nDigits c : Int) + e - 1
      let expMin : Int := if adj < Emin then Etiny else expMin0
      if e < expMin then
        let k : Nat := (expMin - e).toNat
        let q' := roundHalfEvenAt c k
        let res : Nat × Int := if nDigits q' > prec then (q' / 10, expMin + 1) else (q', expMin)
        if res.2 > Etop then Except.error Err.overflow
        else Except.ok (DecVal.fin s res.1 res.2)
      else Except.ok (DecVal.fin s c e)

/-- Exact sum of two finite decimals before the context fix, following
`Decimal.__add__`: align at the smaller exponent, add the signed
coefficients; a zero result is negative only when both operands are
negative (with ROUND_HALF_EVEN, `negativezero = 0`). -/
def exactAdd (s1 : Bool) (c1 : Nat) (e1 : Int) (s2 : Bool) (c2 : Nat) (e2 : Int) :
    Bool × Nat × Int :=
  let e := min e1 e2
  let i1 : Int := sInt s1 c1 * 10 ^ (e1 - e).toNat
  let i2 : Int := sInt s2 c2 * 10 ^ (e2 - e).toNat
  let sum := i1 + i2
  if sum = 0 then (s1 && s2, 0, e)
  else (decide (sum < 0), sum.natAbs, e)

/-- Python `Decimal.__add__` in the default context (`_check_nans`
returns a quiet NaN operand as the result; the finite case is the exact
sum rounded by `_fix` - the specification's "exact result, then rounded",
which `__add__`'s `_normalize` shortcut implements). -/
def dAdd : DecVal → DecVal → Except Err DecVal
  | DecVal.nan, _ => Except.ok DecVal.nan
  | DecVal.fin _ _ _, DecVal.nan => Except.ok DecVal.nan
  | DecVal.fin s1 c1 e1, DecVal.fin s2 c2 e2 =>
    let r := exactAdd s1 c1 e1 s2 c2 e2
    dFix r.1 r.2.1 r.2.2

/-- Python `Decimal.copy_negate()`: flip the sign bit, no context. -/
def dCopyNegate : DecVal → DecVal
  | DecVal.fin s c e => DecVal.fin (!s) c e
  | DecVal.nan => DecVal.nan

/-- Python `Decimal.__neg__` in the default context: NaN propagates; a
zero becomes `copy_abs` (so `-Decimal('0')` is positive zero), otherwise
`copy_negate`; the result goes through `_fix`. -/
def dNeg : DecVal → Except Err DecVal
  | DecVal.nan => Except.ok DecVal.nan
  | DecVal.fin s c e => if c = 0 then dFix false 0 e else dFix (!s) c e

/-- Python `Decimal.__mul__` in the default context: NaN propagates;
finite operands multiply signs (xor), coefficients and add exponents,
then `_fix` (the `_int == '1'` and zero shortcuts in the source coincide
with this formula on canonical coefficients). -/
def dMul : DecVal → DecVal → Except Err DecVal
  | DecVal.nan, _ => Except.ok DecVal.nan
  | DecVal.fin _ _ _, DecVal.nan => Except.ok DecVal.nan
  | DecVal.fin s1 c1 e1, DecVal.fin s2 c2 e2 =>
    dFix (xor s1 s2) (c1 * c2) (e1 + e2)

/-- Python `Decimal._rescale(exp, ROUND_HALF_EVEN)` on a finite value:
the coefficient rescaled to the target exponent, exactly when padding,
half-even when digits are dropped (the `digits < 0` replacement by
`(sign, '1', exp-1)` in the source reduces to the same division formula,
since the whole value is then strictly below half an ulp). -/
def dRescaleCoeff (c : Nat) (e : Int) (eTarget : Int) : Nat :=
  if eTarget ≤ e then c * 10 ^ (e - eTarget).toNat
  else roundHalfEvenAt c (eTarget - e).toNat

/-- Python `Decimal.quantize(exp, rounding=None, context=None)` in the
default context: NaN operands propagate as quiet NaN; the target
exponent must lie in `[Etiny, Emax]`; the result must fit in `prec`
digits with adjusted exponent at most Emax, else the trapped
InvalidOperation signal raises; otherwise `_rescale` then `_fix`. -/
def dQuantize : DecVal → DecVal → Except Err DecVal
  | DecVal.nan, _ => Except.ok DecVal.nan
  | DecVal.fin _ _ _, DecVal.nan => Except.ok DecVal.nan
  | DecVal.fin s c e, DecVal.fin _ _ eT =>
    if ¬ (Etiny ≤ eT ∧ eT ≤ Emax) then Except.error Err.invalidOperation
    else if c = 0 then dFix s 0 eT
    else
      let adj : Int := (nDigits c : Int) + e - 1
      if adj > Emax then Except.error Err.invalidOperation
      else if adj - eT + 1 > (prec : Int) then Except.error Err.invalidOperation
      else
        let c' := dRescaleCoeff c e eT
        let adj' : Int := (nDigits c' : Int) + eT - 1
        if adj' > Emax then Except.error Err.invalidOperation
        else if nDigits c' > prec then Except.error Err.invalidOperation
        else dFix s c' eT

/-- Python `Decimal.__int__` (truncation toward zero): NaN raises
`ValueError("Cannot convert NaN to integer")`; otherwise drop the
fractional digits of the magnitude (`self._int[:self._exp]` for a
negative exponent is floor division of the coefficient). -/
def dTrunc : DecVal → Except Err Int
  | DecVal.nan => Except.error (Err.valueError "Cannot convert NaN to integer")
  | DecVal.fin s c e =>
    if 0 ≤ e then Except.ok (sInt s (c * 10 ^ e.toNat))
    else Except.ok (sInt s (c / 10 ^ (-e).toNat))

/-- The aligned signed coefficients used for numeric comparison
(`Decimal._cmp` semantics: the sign of a zero is ignored, values compare
as rationals). -/
def alignedInts (s1 : Bool) (c1 : Nat) (e1 : Int) (s2 : Bool) (c2 : Nat) (e2 : Int) :
    Int × Int :=
  let m := min e1 e2
  (sInt s1 c1 * 10 ^ (e1 - m).toNat, sInt s2 c2 * 10 ^ (e2 - m).toNat)

/-- Python `Decimal.__eq__`: a quiet NaN operand makes the comparison
False; finite values compare numerically. -/
def dEq : DecVal → DecVal → Bool
  | DecVal.fin s1 c1 e1, DecVal.fin s2 c2 e2 =>
    let p := alignedInts s1 c1 e1 s2 c2 e2
    decide (p.1 = p.2)
  | _, _ => false

/-- Python `Decimal.__lt__` in the default context: a comparison
involving a (quiet) NaN raises the trapped InvalidOperation signal;
finite values compare numerically. -/
def dLt : DecVal → DecVal → Except Err Bool
  | DecVal.fin s1 c1 e1, DecVal.fin s2 c2 e2 =>
    let p := alignedInts s1 c1 e1 s2 c2 e2
    Except.ok (decide (p.1 < p.2))
  | _, _ => Except.error Err.invalidOperation

/-- Modelled from the spec: `shop/money/iso4217.py` (the `CURRENCIES`
table imported by `money_maker.py` and `fields.py`) is not under `src/`.
Per the spec's Currency Table, it maps a 3-letter uppercase code to
`(numeric code, number of minor-unit decimal digits, symbol, display
name)`; the symbol and display name are presentation-only and unused by
the claims, so the model keeps `(numeric code, minor digits)` for the
codes the spec names (EUR and USD with 2 minor digits, JPY with 0) plus
GBP. -/
def CURRENCIES : String → Option (Nat × Nat)
  | "EUR" => some (978, 2)
  | "USD" => some (840, 2)
  | "JPY" => some (392, 0)
  | "GBP" => some (826, 2)
  | _ => none

/-- Python `str.upper()` as the character-list map (ASCII currency
codes). -/
def strUpper (s : String) : String := String.mk (s.data.map Char.toUpper)

/-- Modelled from the spec: the process-wide default currency code
(`shop_settings.DEFAULT_CURRENCY`, an externally configured collaborator
input; `shop/settings.py` is not under `src/`). -/
def DEFAULT_CURRENCY : String := "EUR"

/-- A class built by `MoneyMaker`: `type('MoneyIn' + code, (AbstractMoney,),
attrs)` with class attributes `_currency_code` and `_cents`.  `uid` models
Python object identity: `type(...)` allocates a fresh class object on every
call, so each call yields a distinct `uid`; `is`-comparison of two classes
is equality of their `uid`s. -/
structure MoneyType where
  currency_code : String
  cents : DecVal
  uid : Nat
deriving DecidableEq, Repr

/-- An instance of a `MoneyIn<code>` class: the class it carries plus the
inherited `Decimal` state (`_sign`, `_int`, `_exp`, `_is_special`). -/
structure MoneyValue where
  ty : MoneyType
  amount : DecVal
deriving DecidableEq, Repr

/-- `MoneyMaker.__new__`: normalize the code (default currency when absent,
uppercase otherwise), fail with `ValueError` for a code not in
`CURRENCIES`, derive `_cents = Decimal('.' + digits * '0')` - which is
`(0, '0', -digits)`, falling back to `Decimal()` = `(0, '0', 0)` for
zero-digit currencies where `Decimal('.')` raises InvalidOperation - and
build a fresh class.  There is no cache in the source: `type(name, bases,
attrs)` runs on every call, so the allocation counter `nextUid` advances
each time. -/
def MoneyMaker (currency_code : Option String) (nextUid : Nat) :
    Except Err (MoneyType × Nat) :=
  let code := match currency_code with
    | Option.none => DEFAULT_CURRENCY
    | Option.some c => strUpper c
  match CURRENCIES code with
  | Option.none =>
    Except.error (Err.valueError (code ++ " is an unknown currency code."))
  | Option.some entry =>
    let cents := if entry.2 = 0 then DecVal.fin false 0 0
                 else DecVal.fin false 0 (-(entry.2 : Int))
    Except.ok (⟨code, cents, nextUid⟩, nextUid + 1)

/-- Construction sources accepted by `new_money` that the claims reach: a
money value (of any currency - every money class inherits from `Decimal`),
a plain `Decimal`, a string, an int, `None`, or the omitted-argument
default `value='NaN'`. -/
inductive Source where
  | moneyV (v : MoneyValue)
  | decV (d : DecVal)
  | strV (s : String)
  | intV (n : Int)
  | pyNone
  | default
deriving DecidableEq, Repr

/-- Other-operand values for the binary money operations reached by the
claims: another money value, a plain `Decimal`, an int, a finite float
(an exact dyadic rational `m * 2^e`), or `None`. -/
structure PyFloat where
  m : Int
  e : Int
deriving DecidableEq, Repr

/-- Rational value of a finite Python float. -/
def floatVal (f : PyFloat) : ℚ := (f.m : ℚ) * (2 : ℚ) ^ f.e

/-- `Decimal(float)`: the exact decimal expansion of a finite binary
float - `m * 2^e` equals `(m * 2^e) * 10^0` for a non-negative binary
exponent and `(m * 5^k) * 10^(-k)` with `k = -e` otherwise. -/
def floatToDec (f : PyFloat) : DecVal :=
  if 0 ≤ f.e then DecVal.fin (decide (f.m < 0)) (f.m.natAbs * 2 ^ f.e.toNat) 0
  else DecVal.fin (decide (f.m < 0)) (f.m.natAbs * 5 ^ (-f.e).toNat) (f.e)

/-- Binary-operation operand. -/
inductive Operand where
  | money (v : MoneyValue)
  | dec (d : DecVal)
  | int (n : Int)
  | float (f : PyFloat)
  | pyNone
deriving DecidableEq, Repr

/-- Parse a decimal literal string: sign bit from digit characters. -/
def charToDigit (ch : Char) : Nat := ch.toNat - 48

/-- Digit character for a digit value below 10. -/
def digitChar (d : Nat) : Char := Char.ofNat (48 + d)

/-- Recursion worker for base-10 digit extraction, least significant
first; the fuel argument only bounds the recursion depth. -/
def digitsFuel : Nat → Nat → List Nat
  | 0, _ => []
  | fuel + 1, c => if c = 0 then [] else c % 10 :: digitsFuel fuel (c / 10)

/-- Canonical most-significant-first digit list of a coefficient; the zero
coefficient is the single digit 0, matching the string "0". -/
def canonDigits (c : Nat) : List Nat :=
  if c = 0 then [0] else (digitsFuel c c).reverse

/-- Sign-then-digits character run used by the scientific-notation exponent
field of `Decimal.__str__` (`"%+d"`: the sign is always printed). -/
def intSignChars (n : Int) : List Char :=
  (if n < 0 then '-' else '+') :: (canonDigits n.natAbs).map digitChar

/-- Python `Decimal.__str__` (non-engineering, capitals on) as a character
list: `NaN` for a quiet NaN; otherwise place the point at `leftdigits =
exp + len(int)` when `exp <= 0` and `leftdigits > -6`, else at 1 with an
`E`-exponent. -/
def decToChars : DecVal → List Char
  | DecVal.nan => ['N', 'a', 'N']
  | DecVal.fin s c e =>
    let ds : List Char := (canonDigits c).map digitChar
    let len : Int := (ds.length : Int)
    let leftdigits : Int := e + len
    let dotplace : Int := if e ≤ 0 ∧ -6 < leftdigits then leftdigits else 1
    let body : List Char :=
      if dotplace ≤ 0 then
        '0' :: '.' :: (List.replicate (-dotplace).toNat '0' ++ ds)
      else if len ≤ dotplace then
        ds ++ List.replicate (dotplace - len).toNat '0'
      else
        ds.take dotplace.toNat ++ '.' :: ds.drop dotplace.toNat
    let expPart : List Char :=
      if leftdigits = dotplace then [] else 'E' :: intSignChars (leftdigits - dotplace)
    (if s then ['-'] else []) ++ body ++ expPart

/-- String form of a decimal (`str(Decimal)` - the plain `Decimal`
returned by `as_decimal` has no money formatting). -/
def dStr (d : DecVal) : String := String.mk (decToChars d)

/-- Optional leading sign of a numeric literal. -/
def readSign : List Char → Bool × List Char
  | [] => (false, [])
  | ch :: rest =>
    if ch = '-' then (true, rest)
    else if ch = '+' then (false, rest)
    else (false, ch :: rest)

/-- Exponent field after `E`/`e`: optional sign then at least one digit. -/
def parseExpChars (cs : List Char) : Option Int :=
  let p := readSign cs
  if p.2 ≠ [] ∧ p.2.all Char.isDigit then
    Option.some ((if p.1 then -1 else 1) *
      (Nat.ofDigits 10 ((p.2.map charToDigit).reverse) : Int))
  else Option.none

/-- The decimal string grammar of `decimal._parser` restricted to the
model's value domain: an optional sign, then either a numeric body - a
possibly empty integer-digit run, an optional point with a fractional
run, at least one digit overall, an optional exponent - or a `NaN`
literal.  The coefficient is `str(int(intpart + fracpart))`, so leading
zeros vanish, and the exponent is the written exponent minus the length
of the fractional run.  Signaling-NaN, infinity and NaN-with-diagnostic
literals fall outside the model's `DecVal` domain and are not accepted;
no surrounding whitespace is modelled. -/
def decParseChars (cs : List Char) : Option DecVal :=
  let p := readSign cs
  let sg := p.1
  let cs1 := p.2
  if cs1 = ['N', 'a', 'N'] ∨ cs1 = ['n', 'a', 'n'] ∨ cs1 = ['N', 'A', 'N'] then
    Option.some DecVal.nan
  else
    let intPart := cs1.takeWhile Char.isDigit
    let rest1 := cs1.dropWhile Char.isDigit
    let fracRest : List Char × List Char :=
      match rest1 with
      | ch :: r =>
        if ch = '.' then (r.takeWhile Char.isDigit, r.dropWhile Char.isDigit)
        else ([], ch :: r)
      | [] => ([], [])
    let fracPart := fracRest.1
    let rest2 := fracRest.2
    if intPart = [] ∧ fracPart = [] then Option.none
    else
      let expVal : Option Int :=
        match rest2 with
        | [] => Option.some 0
        | ch :: r => if ch = 'E' ∨ ch = 'e' then parseExpChars r else Option.none
      match expVal with
      | Option.none => Option.none
      | Option.some ev =>
        Option.some (DecVal.fin sg
          (Nat.ofDigits 10 (((intPart ++ fracPart).map charToDigit).reverse))
          (ev - fracPart.length))

/-- `Decimal.__new__` on a string argument (exact, context-free parse). -/
def decParse (s : String) : Option DecVal := decParseChars s.data

/-- The `new_money` closure installed as `__new__` on every class built by
`MoneyMaker`.  For a money value of any class - `isinstance(value, cls)`
holds only when the value's class is `cls` itself, and then the `assert
cls._currency_code == value._currency_code` trivially passes; a value of
any other money class still satisfies `isinstance(value, Decimal)` - the
internal fields are copied bit-for-bit, with no currency check on that
path.  `None` becomes `'NaN'`; strings parse exactly, any parse failure
re-raised as `ValueError`. -/
def new_money (cls : MoneyType) (value : Source) : Except Err MoneyValue :=
  match value with
  | Source.moneyV v => Except.ok ⟨cls, v.amount⟩
  | Source.decV d => Except.ok ⟨cls, d⟩
  | Source.pyNone => Except.ok ⟨cls, DecVal.nan⟩
  | Source.default => Except.ok ⟨cls, DecVal.nan⟩
  | Source.intV n => Except.ok ⟨cls, DecVal.fin (decide (n < 0)) n.natAbs 0⟩
  | Source.strV s =>
    match decParse s with
    | Option.some d => Except.ok ⟨cls, d⟩
    | Option.none => Except.error (Err.valueError ("Invalid literal: " ++ s))

/-- `_make_money(currency_code, value)`: curries currency and value
(pickle support). -/
def make_money (currency_code : String) (value : Source) (nextUid : Nat) :
    Except Err (MoneyValue × Nat) := do
  let p ← MoneyMaker (Option.some currency_code) nextUid
  let v ← new_money p.1 value
  pure (v, p.2)

/-- `AbstractMoney._assert_addable(other)`: an exact int/float zero is
replaced by `self.__class__('0')`; otherwise `other` must carry the same
`_currency_code` (`getattr(other, '_currency_code', None)` is `None` for
non-money operands, so they fail); a NaN money operand of the same
currency also becomes zero. -/
def assert_addable (self : MoneyValue) (other : Operand) : Except Err DecVal :=
  let mismatch : Except Err DecVal :=
    Except.error (Err.valueError "Can not add/substract money in different currencies.")
  match other with
  | Operand.int n => if n = 0 then Except.ok (DecVal.fin false 0 0) else mismatch
  | Operand.float f => if f.m = 0 then Except.ok (DecVal.fin false 0 0) else mismatch
  | Operand.money v =>
    if self.ty.currency_code ≠ v.ty.currency_code then mismatch
    else if v.amount.isNan then Except.ok (DecVal.fin false 0 0)
    else Except.ok v.amount
  | Operand.dec _ => mismatch
  | Operand.pyNone => mismatch

/-- `AbstractMoney._assert_multipliable(other)`: anything carrying a
`_currency_code` fails; a float is converted to its exact decimal; the
int passthrough is inlined as the exact conversion `_convert_other`
performs inside `Decimal.__mul__`. -/
def assert_multipliable (other : Operand) : Except Err DecVal :=
  match other with
  | Operand.money _ => Except.error (Err.valueError "Can not multiply currencies.")
  | Operand.float f => Except.ok (floatToDec f)
  | Operand.int n => Except.ok (DecVal.fin (decide (n < 0)) n.natAbs 0)
  | Operand.dec d => Except.ok d
  | Operand.pyNone => Except.error (Err.valueError "Can not multiply currencies.")

/-- `AbstractMoney.__add__`: check the operand, then `Decimal.__add__`
unless `self` is NaN, in which case the (already zero-or-value) operand is
taken as the amount; the result is rewrapped in `self.__class__`. -/
def moneyAdd (self : MoneyValue) (other : Operand) : Except Err MoneyValue := do
  let o ← assert_addable self other
  let amount ← if self.amount.isNan then pure o else dAdd self.amount o
  pure ⟨self.ty, amount⟩

/-- `AbstractMoney.__radd__` delegates to `__add__`. -/
def moneyRadd (self : MoneyValue) (other : Operand) : Except Err MoneyValue :=
  moneyAdd self other

/-- `AbstractMoney.__sub__`: `self + other.copy_negate()` via
`Decimal.__add__` - note there is no NaN guard on `self` here. -/
def moneySub (self : MoneyValue) (other : Operand) : Except Err MoneyValue := do
  let o ← assert_addable self other
  let amount ← dAdd self.amount (dCopyNegate o)
  pure ⟨self.ty, amount⟩

/-- `AbstractMoney.__rsub__`: always raises. -/
def moneyRsub (_self : MoneyValue) (_other : Operand) : Except Err MoneyValue :=
  Except.error (Err.valueError "Can not substract money from something else.")

/-- `AbstractMoney.__neg__`: `Decimal.__neg__` rewrapped. -/
def moneyNeg (self : MoneyValue) : Except Err MoneyValue := do
  let amount ← dNeg self.amount
  pure ⟨self.ty, amount⟩

/-- `AbstractMoney.__mul__`: `None` yields `self.__class__('NaN')` before
any check; otherwise the operand must not carry a currency and the product
is rewrapped. -/
def moneyMul (self : MoneyValue) (other : Operand) : Except Err MoneyValue :=
  match other with
  | Operand.pyNone => Except.ok ⟨self.ty, DecVal.nan⟩
  | _ => do
    let o ← assert_multipliable other
    let amount ← dMul self.amount o
    pure ⟨self.ty, amount⟩

/-- Money values inherit `Decimal.__eq__`: numeric equality of the
amounts, False on NaN, the currency tags are never consulted. -/
def moneyEq (a b : MoneyValue) : Bool := dEq a.amount b.amount

/-- Money values inherit `Decimal.__lt__` unchanged: `AbstractMoney`
defines no comparison methods, so `<` is numeric comparison of the
amounts with no currency check. -/
def moneyLt (a b : MoneyValue) : Except Err Bool := dLt a.amount b.amount

/-- `AbstractMoney.as_decimal()`: `Decimal.quantize(self, self._cents)`,
returning a plain `Decimal`. -/
def as_decimal (self : MoneyValue) : Except Err DecVal :=
  dQuantize self.amount self.ty.cents

/-- `AbstractMoney.subunits`: `10 ** CURRENCIES[cls._currency_code][1]`. -/
def subunits (self : MoneyValue) : Except Err Nat :=
  match CURRENCIES self.ty.currency_code with
  | Option.some entry => Except.ok (10 ^ entry.2)
  | Option.none => Except.error Err.keyError

/-- `AbstractMoney.as_integer()`: `int(self.as_decimal() * self.subunits)`
(the multiplication is `Decimal.__mul__` in the default context). -/
def as_integer (self : MoneyValue) : Except Err Int := do
  let q ← as_decimal self
  let su ← subunits self
  let p ← dMul q (DecVal.fin false su 0)
  dTrunc p

/-- Outcome comparison used by the subtraction claim: equal values under
money `==` when both computations return, the same error when both fail,
false on a mixed outcome. -/
def exceptMoneyEq : Except Err MoneyValue → Except Err MoneyValue → Bool
  | Except.ok x, Except.ok y => moneyEq x y
  | Except.error e1, Except.error e2 => decide (e1 = e2)
  | _, _ => false

/-! ### Context constants, unfolded for arithmetic -/

theorem prec_eq : prec = 28 := rfl

theorem Emax_eq : Emax = 999999 := rfl

theorem Etiny_eq : Etiny = -1000026 := rfl

theorem Etop_eq : Etop = 999972 := rfl

/-! ### Facts about coefficient lengths -/

theorem nDigits_pos (c : Nat) : 1 ≤ nDigits c := by
  rw [nDigits_eq_log]
  omega

theorem nDigits_zero : nDigits 0 = 1 := rfl

theorem lt_pow_nDigits (c : Nat) : c < 10 ^ nDigits c := by
  rw [nDigits_eq_log]
  exact Nat.lt_pow_succ_log_self (by norm_num) c

theorem nDigits_le_of_lt_pow {c k : Nat} (hk : 1 ≤ k) (h : c < 10 ^ k) :
    nDigits c ≤ k := by
  rcases Nat.eq_zero_or_pos c with h0 | h0
  · subst h0; rw [nDigits_zero]; omega
  · have := Nat.log_lt_of_lt_pow h0.ne' h
    rw [nDigits_eq_log]
    omega

theorem nDigits_mul_pow {c : Nat} (hc : c ≠ 0) (t : Nat) :
    nDigits (c * 10 ^ t) = nDigits c + t := by
  induction t with
  | zero => simp
  | succ n ih =>
    have h1 : c * 10 ^ (n + 1) = c * 10 ^ n * 10 := by ring
    have h2 : c * 10 ^ n ≠ 0 := by positivity
    rw [h1]
    rw [nDigits_eq_log] at *
    rw [Nat.log_mul_base (by norm_num) h2]
    omega

theorem digitsFuel_eq_digits {fuel c : Nat} (h : c ≤ fuel) :
    digitsFuel fuel c = Nat.digits 10 c := by
  induction fuel generalizing c with
  | zero =>
    have hc : c = 0 := by omega
    subst hc
    rw [Nat.digits_zero]
    rfl
  | succ fuel ih =>
    by_cases hc : c = 0
    · subst hc; rw [Nat.digits_zero]; rfl
    · have hdiv : c / 10 < c := Nat.div_lt_self (Nat.pos_of_ne_zero hc) (by norm_num)
      rw [digitsFuel, if_neg hc, ih (by omega),
        Nat.digits_def' (by norm_num : 1 < 10) (Nat.pos_of_ne_zero hc)]

theorem canonDigits_eq (c : Nat) :
    canonDigits c = if c = 0 then [0] else (Nat.digits 10 c).reverse := by
  unfold canonDigits
  by_cases hc : c = 0
  · simp [hc]
  · rw [if_neg hc, if_neg hc, digitsFuel_eq_digits le_rfl]

/-! ### The fix function on inputs needing no change, and exact rounding
of trailing zeros -/

theorem dFix_noop {s : Bool} {c : Nat} {e : Int}
    (h1 : nDigits c ≤ prec) (h2 : Etiny ≤ e)
    (h3 : (nDigits c : Int) + e - 1 ≤ Emax) :
    dFix s c e = Except.ok (DecVal.fin s c e) := by
  by_cases h0 : c = 0
  · subst h0
    have he : e ≤ Emax := by
      rw [nDigits_zero] at h3; omega
    unfold dFix
    rw [if_pos rfl, max_eq_left h2, min_eq_left he]
  · have hnd := nDigits_pos c
    have hover : ¬ ((nDigits c : Int) + e - prec > Etop) := by
      rw [Etop_eq, Emax_eq] at *; rw [prec_eq]; omega
    have hprec : (prec : Int) = 28 := by rw [prec_eq]; norm_num
    simp only [dFix, if_neg h0, if_neg hover]
    by_cases hsub : (nDigits c : Int) + e - 1 < Emin
    · rw [if_pos hsub, if_neg (by omega : ¬ e < Etiny)]
    · rw [if_neg hsub, if_neg (by omega : ¬ e < (nDigits c : Int) + e - prec)]

theorem cast_mul_pow_shift (c : Nat) (a : Nat) (e : Int) :
    ((c * 10 ^ a : Nat) : ℚ) * (10 : ℚ) ^ e = (c : ℚ) * (10 : ℚ) ^ (e + a) := by
  push_cast
  rw [mul_assoc, ← zpow_natCast (10 : ℚ) a, ← zpow_add₀ (by norm_num : (10 : ℚ) ≠ 0)]
  norm_num [add_comm]

theorem dFix_pow_exact {s : Bool} {c : Nat} (t : Nat) {e : Int}
    (hc : c ≠ 0) (h1 : nDigits c ≤ prec) (h2 : Etiny ≤ e)
    (h3 : (nDigits c : Int) + t + e - 1 ≤ Emax) :
    ∃ c2 e2, dFix s (c * 10 ^ t) e = Except.ok (DecVal.fin s c2 e2) ∧
      e2 ≤ e + t ∧ c2 ≠ 0 ∧
      (c2 : ℚ) * (10 : ℚ) ^ e2 = (c : ℚ) * (10 : ℚ) ^ (e + t) := by
  have hC : c * 10 ^ t ≠ 0 := by positivity
  have hnd : nDigits (c * 10 ^ t) = nDigits c + t := nDigits_mul_pow hc t
  have hnd1 := nDigits_pos c
  have hover : ¬ ((nDigits (c * 10 ^ t) : Int) + e - prec > Etop) := by
    rw [hnd, Etop_eq] at *
    rw [Emax_eq] at h3
    rw [prec_eq]
    push_cast
    omega
  simp only [dFix, if_neg hC, if_neg hover]
  by_cases hsub : (nDigits (c * 10 ^ t) : Int) + e - 1 < Emin
  · -- subnormal: exponent floor becomes Etiny, which is at most e: no rounding
    rw [if_pos hsub, if_neg (by omega : ¬ e < Etiny)]
    exact ⟨c * 10 ^ t, e, rfl, by omega, hC, cast_mul_pow_shift c t e⟩
  · rw [if_neg hsub]
    by_cases hrnd : e < (nDigits (c * 10 ^ t) : Int) + e - prec
    · rw [if_pos hrnd]
      -- the number of dropped digits is positive and at most t
      have hkpos : (0 : Int) < (nDigits c : Int) + t - prec := by
        rw [hnd] at hrnd; push_cast at hrnd ⊢; omega
      have hkval : ((nDigits (c * 10 ^ t) : Int) + e - prec - e).toNat
          = nDigits c + t - prec := by
        rw [hnd]; push_cast; omega
      have hkp : prec ≤ nDigits c + t := by omega
      have h10t : (10 : ℕ) ^ t = 10 ^ (prec - nDigits c) * 10 ^ (nDigits c + t - prec) := by
        rw [← pow_add]
        congr 1
        omega
      have hq : c * 10 ^ t / 10 ^ (nDigits c + t - prec)
          = c * 10 ^ (prec - nDigits c) := by
        rw [h10t, ← mul_assoc]
        exact Nat.mul_div_cancel _ (by positivity)
      have hr0 : c * 10 ^ t % 10 ^ (nDigits c + t - prec) = 0 := by
        rw [h10t, ← mul_assoc]
        exact Nat.mul_mod_left _ _
      have hround : roundHalfEvenAt (c * 10 ^ t) (nDigits c + t - prec)
          = c * 10 ^ (prec - nDigits c) := by
        unfold roundHalfEvenAt
        rw [hr0, hq, if_neg]
        push_neg
        constructor
        · omega
        · intro habs
          exfalso
          have : (0 : Nat) < 5 * 10 ^ (nDigits c + t - prec - 1) := by positivity
          omega
      have hq0 : c * 10 ^ (prec - nDigits c) ≠ 0 := by positivity
      have hndq : nDigits (c * 10 ^ (prec - nDigits c)) = prec := by
        rw [nDigits_mul_pow hc]; omega
      have hnogrow : ¬ nDigits (c * 10 ^ (prec - nDigits c)) > prec := by omega
      rw [hkval, hround, if_neg hnogrow, if_neg hover]
      refine ⟨c * 10 ^ (prec - nDigits c), (nDigits (c * 10 ^ t) : Int) + e - prec,
        rfl, by rw [hnd]; push_cast; omega, hq0, ?_⟩
      have hexp : (nDigits (c * 10 ^ t) : Int) + e - prec
          + ((prec - nDigits c : ℕ) : Int) = e + t := by
        rw [hnd]
        push_cast [Nat.cast_sub h1]
        omega
      rw [cast_mul_pow_shift, hexp]
    · rw [if_neg hrnd]
      exact ⟨c * 10 ^ t, e, rfl, by omega, hC, cast_mul_pow_shift c t e⟩

/-! ### Numeric comparison agrees with rational values -/

theorem aligned_val {s : Bool} {c : Nat} {e m : Int} (h : m ≤ e) :
    ((sInt s c * 10 ^ (e - m).toNat : ℤ) : ℚ) * (10 : ℚ) ^ m
      = (sInt s c : ℚ) * (10 : ℚ) ^ e := by
  push_cast
  rw [mul_assoc, ← zpow_natCast (10 : ℚ) (e - m).toNat,
    ← zpow_add₀ (by norm_num : (10 : ℚ) ≠ 0)]
  congr 2
  omega

theorem dEq_true_iff {s1 : Bool} {c1 : Nat} {e1 : Int} {s2 : Bool} {c2 : Nat} {e2 : Int} :
    dEq (DecVal.fin s1 c1 e1) (DecVal.fin s2 c2 e2) = true ↔
      dRatVal (DecVal.fin s1 c1 e1) = dRatVal (DecVal.fin s2 c2 e2) := by
  have hpow : (0 : ℚ) < (10 : ℚ) ^ (min e1 e2) := zpow_pos (by norm_num) _
  simp only [dEq, alignedInts, dRatVal, decide_eq_true_eq]
  constructor
  · intro h
    rw [← aligned_val (s := s1) (c := c1) (min_le_left e1 e2),
      ← aligned_val (s := s2) (c := c2) (min_le_right e1 e2), h]
  · intro h
    have h2 : ((sInt s1 c1 * 10 ^ (e1 - min e1 e2).toNat : ℤ) : ℚ) * (10 : ℚ) ^ (min e1 e2)
        = ((sInt s2 c2 * 10 ^ (e2 - min e1 e2).toNat : ℤ) : ℚ) * (10 : ℚ) ^ (min e1 e2) := by
      rw [aligned_val (min_le_left e1 e2), aligned_val (min_le_right e1 e2), h]
    have h3 := mul_right_cancel₀ (ne_of_gt hpow) h2
    exact_mod_cast h3

theorem dLt_fin {s1 : Bool} {c1 : Nat} {e1 : Int} {s2 : Bool} {c2 : Nat} {e2 : Int} :
    dLt (DecVal.fin s1 c1 e1) (DecVal.fin s2 c2 e2)
      = Except.ok (decide (dRatVal (DecVal.fin s1 c1 e1) < dRatVal (DecVal.fin s2 c2 e2))) := by
  have hpow : (0 : ℚ) < (10 : ℚ) ^ (min e1 e2) := zpow_pos (by norm_num) _
  simp only [dLt, alignedInts]
  congr 1
  apply decide_eq_decide.mpr
  constructor
  · intro h
    rw [dRatVal, dRatVal, ← aligned_val (s := s1) (c := c1) (min_le_left e1 e2),
      ← aligned_val (s := s2) (c := c2) (min_le_right e1 e2)]
    have : ((sInt s1 c1 * 10 ^ (e1 - min e1 e2).toNat : ℤ) : ℚ)
        < ((sInt s2 c2 * 10 ^ (e2 - min e1 e2).toNat : ℤ) : ℚ) := by exact_mod_cast h
    exact mul_lt_mul_of_pos_right this hpow
  · intro h
    rw [dRatVal, dRatVal, ← aligned_val (s := s1) (c := c1) (min_le_left e1 e2),
      ← aligned_val (s := s2) (c := c2) (min_le_right e1 e2)] at h
    have := lt_of_mul_lt_mul_right h (le_of_lt hpow)
    exact_mod_cast this

theorem dEq_refl_fin (s : Bool) (c : Nat) (e : Int) :
    dEq (DecVal.fin s c e) (DecVal.fin s c e) = true := by
  simp [dEq, alignedInts]

theorem dEq_zeros (s1 : Bool) (e1 : Int) (s2 : Bool) (e2 : Int) :
    dEq (DecVal.fin s1 0 e1) (DecVal.fin s2 0 e2) = true := by
  simp [dEq, alignedInts, sInt]

/-- The fix of a finite triple is never NaN. -/
theorem dFix_shape {s : Bool} {c : Nat} {e : Int} {d : DecVal}
    (h : dFix s c e = Except.ok d) : ∃ s2 c2 e2, d = DecVal.fin s2 c2 e2 := by
  simp only [dFix] at h
  repeat' split at h
  all_goals cases h
  all_goals exact ⟨_, _, _, rfl⟩

theorem sInt_false (c : Nat) : sInt false c = c := by simp [sInt]

theorem sInt_true (c : Nat) : sInt true c = -c := by simp [sInt]

theorem sInt_eq_zero_iff {s : Bool} {c : Nat} : sInt s c = 0 ↔ c = 0 := by
  cases s <;> simp [sInt]

theorem sInt_natAbs (s : Bool) (c : Nat) : (sInt s c).natAbs = c := by
  cases s <;> simp [sInt]

/-- Adding a zero-coefficient operand: the exact sum does not depend on the
zero's sign when the other coefficient is nonzero. -/
theorem exactAdd_zero_right (s1 : Bool) (c1 : Nat) (e1 : Int) (s2 : Bool) (e2 : Int)
    (hc : c1 ≠ 0) :
    exactAdd s1 c1 e1 s2 0 e2
      = (s1, c1 * 10 ^ (e1 - min e1 e2).toNat, min e1 e2) := by
  have hpow : (0 : ℤ) < 10 ^ (e1 - min e1 e2).toNat := by positivity
  simp only [exactAdd]
  have h0 : sInt s2 0 * 10 ^ (e2 - min e1 e2).toNat = 0 := by simp [sInt]
  rw [h0, add_zero]
  have hne : sInt s1 c1 * 10 ^ (e1 - min e1 e2).toNat ≠ 0 :=
    mul_ne_zero (fun hz => hc (sInt_eq_zero_iff.mp hz)) (ne_of_gt hpow)
  rw [if_neg hne]
  simp only [Prod.mk.injEq]
  refine ⟨?_, ?_, ?_⟩
  · cases s1
    · rw [sInt_false]
      simp only [decide_eq_false_iff_not, not_lt]
      positivity
    · rw [sInt_true]
      simp only [neg_mul, decide_eq_true_eq, neg_lt_zero]
      have hcp : (0 : ℤ) < (c1 : ℤ) := by exact_mod_cast Nat.pos_of_ne_zero hc
      positivity
  · simp [Int.natAbs_mul, sInt_natAbs, Int.natAbs_pow]
  · trivial

theorem sInt_natAbs_mul (m : Int) (k : Nat) :
    (sInt (decide (m < 0)) (m.natAbs * k) : ℤ) = m * k := by
  rcases lt_or_le m 0 with h | h
  · rw [decide_eq_true h, sInt_true, Nat.cast_mul,
      Int.ofNat_natAbs_of_nonpos (le_of_lt h)]
    ring
  · rw [decide_eq_false (not_lt.mpr h), sInt_false, Nat.cast_mul,
      Int.natAbs_of_nonneg h]

/-! ### Concrete fixtures: the types `MoneyMaker('EUR')` / `MoneyMaker('USD')`
produce when the first two class allocations are observed, and a few values -/

def eurTy : MoneyType := ⟨"EUR", DecVal.fin false 0 (-2), 0⟩

def eurTyB : MoneyType := ⟨"EUR", DecVal.fin false 0 (-2), 1⟩

def usdTy : MoneyType := ⟨"USD", DecVal.fin false 0 (-2), 1⟩

def eurOne : MoneyValue := ⟨eurTy, DecVal.fin false 1 0⟩

def usdOne : MoneyValue := ⟨usdTy, DecVal.fin false 1 0⟩

def usdTwo : MoneyValue := ⟨usdTy, DecVal.fin false 2 0⟩

def eurNaN : MoneyValue := ⟨eurTy, DecVal.nan⟩

/-! ### Claim C1 -/

/-- C1: the claim says constructing a MoneyValue from a MoneyValue tagged
with a different currency always fails with TypeMismatch.  The code does
not: `isinstance(value, cls)` is false for a foreign-currency money value,
so the `assert cls._currency_code == value._currency_code` is skipped and
the `isinstance(value, (cls, Decimal))` branch silently copies the foreign
amount into the new currency.  Here `MoneyMaker('EUR')(MoneyMaker('USD')('1'))`
succeeds and returns an EUR-tagged value carrying USD's amount 1. -/
theorem c1_cross_currency_construction_succeeds :
    MoneyMaker (Option.some "EUR") 0 = Except.ok (eurTy, 1) ∧
    MoneyMaker (Option.some "USD") 1 = Except.ok (usdTy, 2) ∧
    eurTy.currency_code ≠ usdTy.currency_code ∧
    new_money eurTy (Source.moneyV usdOne)
      = Except.ok ⟨eurTy, DecVal.fin false 1 0⟩ ∧
    dRatVal (DecVal.fin false 1 0) = 1 := by
  refine ⟨by decide, by decide, by decide, rfl, by simp [dRatVal, sInt]⟩

/-! ### Claim C2 -/

/-- C2 counterexample: comparing EUR(1) with USD(1) / USD(2) does not raise
CurrencyMismatch; `AbstractMoney` defines no comparison methods, so
`Decimal` ordering applies and ignores the currency tags. -/
theorem c2_cross_currency_comparison_counterexample :
    eurTy.currency_code ≠ usdTy.currency_code ∧
    moneyLt eurOne usdOne = Except.ok false ∧
    moneyLt eurOne usdTwo = Except.ok true := by decide

/-- C2 amended: comparison between MoneyValues ignores currency entirely -
it is inherited `Decimal` comparison of the amounts.  An ordering
comparison involving an undefined (NaN) amount raises the decimal
InvalidOperation signal (trapped by the default context), so NaN is
unordered in the sense that `<` never returns a truth value for it;
defined amounts compare by their rational values. -/
theorem c2_comparison_ignores_currency (a b : MoneyValue) :
    moneyLt a b = if a.amount.isNan || b.amount.isNan
      then Except.error Err.invalidOperation
      else Except.ok (decide (dRatVal a.amount < dRatVal b.amount)) := by
  rcases a with ⟨ta, da⟩
  rcases b with ⟨tb, db⟩
  cases da <;> cases db
  · simpa [moneyLt, DecVal.isNan] using dLt_fin
  all_goals simp [moneyLt, dLt, DecVal.isNan]

/-! ### Claim C3 -/

/-- C3 counterexample: `MoneyMaker.__new__` has no cache - `type(name,
bases, attrs)` allocates a fresh class object on every call, so two calls
with the code "EUR" return types that are not identity-equal. -/
theorem c3_no_cache_counterexample :
    MoneyMaker (Option.some "EUR") 0 = Except.ok (eurTy, 1) ∧
    MoneyMaker (Option.some "EUR") 1 = Except.ok (eurTyB, 2) ∧
    eurTy ≠ eurTyB := by decide

/-- C3 amended: the factory caches nothing - each call builds a fresh
MoneyType, so two calls for the same code return identity-distinct but
value-equivalent types (same `_currency_code`, same `_cents`); two
MoneyValues are same-currency exactly when their `_currency_code` strings
are equal, which `_assert_addable` compares, so values of the two distinct
type objects interoperate exactly as values of a single one. -/
theorem c3_fresh_types_value_equivalent (code : String) (n : Nat)
    (t1 t2 : MoneyType) (n1 n2 : Nat)
    (h1 : MoneyMaker (Option.some code) n = Except.ok (t1, n1))
    (h2 : MoneyMaker (Option.some code) n1 = Except.ok (t2, n2)) :
    t1.currency_code = t2.currency_code ∧ t1.cents = t2.cents ∧
    t1.uid ≠ t2.uid ∧
    ∀ x y : MoneyValue, y.ty = t2 →
      assert_addable x (Operand.money y)
        = assert_addable x (Operand.money ⟨t1, y.amount⟩) := by
  simp only [MoneyMaker] at h1 h2
  rcases htab : CURRENCIES (strUpper code) with _ | entry
  · rw [htab] at h1
    cases h1
  · rw [htab] at h1 h2
    have e1 := Except.ok.inj h1
    have e2 := Except.ok.inj h2
    have ht1 : t1 = ⟨strUpper code,
        if entry.2 = 0 then DecVal.fin false 0 0 else DecVal.fin false 0 (-(entry.2 : Int)),
        n⟩ := by
      have := congrArg Prod.fst e1
      exact this.symm
    have ht2 : t2 = ⟨strUpper code,
        if entry.2 = 0 then DecVal.fin false 0 0 else DecVal.fin false 0 (-(entry.2 : Int)),
        n1⟩ := by
      have := congrArg Prod.fst e2
      exact this.symm
    have hn1 : n1 = n + 1 := (congrArg Prod.snd e1).symm
    refine ⟨by rw [ht1, ht2], by rw [ht1, ht2], ?_, ?_⟩
    · rw [ht1, ht2]
      show n ≠ n1
      omega
    · intro x y hy
      have hcode : y.ty.currency_code = t1.currency_code := by
        rw [hy, ht1, ht2]
      simp only [assert_addable, hcode]

/-- C3 amended witness at code "EUR" and allocation counter 0. -/
theorem c3_fresh_types_value_equivalent_witness :
    eurTy.currency_code = eurTyB.currency_code ∧ eurTy.cents = eurTyB.cents ∧
    eurTy.uid ≠ eurTyB.uid ∧
    ∀ x y : MoneyValue, y.ty = eurTyB →
      assert_addable x (Operand.money y)
        = assert_addable x (Operand.money ⟨eurTy, y.amount⟩) :=
  c3_fresh_types_value_equivalent "EUR" 0 eurTy eurTyB 1 2 (by decide) (by decide)

/-! ### Claim C7 -/

/-- C7 counterexample: the claim says the reflected subtraction `0 - v`
is accepted, with the literal zero coerced to the additive identity.  It
is not: `AbstractMoney.__rsub__` raises unconditionally, so `0 - v`
fails even for the exact int zero. -/
theorem c7_rsub_zero_fails_counterexample :
    moneyRsub eurOne (Operand.int 0)
      = Except.error (Err.valueError "Can not substract money from something else.") := rfl

/-- C7 amended: the literal-zero exception does not extend to reflected
subtraction: `__rsub__` raises `ValueError("Can not substract money from
something else.")` for every left operand, the exact int/float zero
included.  (The zero coercion lives in `_assert_addable` and therefore
applies only to `v + 0`, `0 + v` via `__radd__`, and `v - 0`.) -/
theorem c7_rsub_always_fails (v : MoneyValue) (other : Operand) :
    moneyRsub v other
      = Except.error (Err.valueError "Can not substract money from something else.") := rfl

/-! ### Claim C8 -/

/-- C8: multiplication contract, as the claim states it: a currency-carrying
operand raises (`_assert_multipliable` rejects anything with a
`_currency_code`); `x * None` short-circuits to the undefined (NaN) value
of `x`'s own currency; a float operand is replaced by its exact decimal
expansion before multiplying, and that expansion has exactly the float's
rational value. -/
theorem c8_multiplication_contract (x : MoneyValue) (w : MoneyValue) (f : PyFloat) :
    moneyMul x (Operand.money w)
        = Except.error (Err.valueError "Can not multiply currencies.") ∧
    moneyMul x Operand.pyNone = Except.ok ⟨x.ty, DecVal.nan⟩ ∧
    moneyMul x (Operand.float f) = moneyMul x (Operand.dec (floatToDec f)) ∧
    dRatVal (floatToDec f) = floatVal f := by
  refine ⟨rfl, rfl, rfl, ?_⟩
  unfold floatToDec floatVal
  by_cases he : 0 ≤ f.e
  · rw [if_pos he]
    simp only [dRatVal, zpow_zero, mul_one]
    rw [sInt_natAbs_mul]
    push_cast
    rw [← zpow_natCast (2 : ℚ) f.e.toNat, Int.toNat_of_nonneg he]
  · rw [if_neg he]
    simp only [dRatVal]
    rw [sInt_natAbs_mul]
    push_cast
    set k : ℕ := (-f.e).toNat with hkdef
    have hk : f.e = -(k : ℤ) := by omega
    rw [mul_assoc]
    congr 1
    rw [hk, zpow_neg, zpow_neg, zpow_natCast, zpow_natCast]
    field_simp
    rw [← mul_pow]
    norm_num

/-! ### Claim C10 -/

/-- C10: addition does not always preserve undefinedness: for any money
type, `NaN + NaN` (same currency) and `NaN + 0` both return the defined
value zero of that currency (`_assert_addable` turns the NaN/zero operand
into `cls('0')`, and a NaN `self` adopts the operand), not an undefined
value. -/
theorem c10_nan_addition_yields_defined_zero (ty : MoneyType) :
    moneyAdd ⟨ty, DecVal.nan⟩ (Operand.money ⟨ty, DecVal.nan⟩)
      = Except.ok ⟨ty, DecVal.fin false 0 0⟩ ∧
    moneyAdd ⟨ty, DecVal.nan⟩ (Operand.int 0)
      = Except.ok ⟨ty, DecVal.fin false 0 0⟩ ∧
    (DecVal.fin false 0 0).isNan = false ∧
    dRatVal (DecVal.fin false 0 0) = 0 := by
  refine ⟨?_, ?_, rfl, by simp [dRatVal, sInt]⟩
  · simp [moneyAdd, assert_addable, DecVal.isNan]
  · simp [moneyAdd, assert_addable, DecVal.isNan]

/-! ### Claim C5 -/

/-- Unsigned value equality transfers to `Decimal.__eq__` when the signs
agree. -/
theorem dEq_of_val_eq {s : Bool} {c1 : Nat} {e1 : Int} {c2 : Nat} {e2 : Int}
    (h : (c1 : ℚ) * (10 : ℚ) ^ e1 = (c2 : ℚ) * (10 : ℚ) ^ e2) :
    dEq (DecVal.fin s c1 e1) (DecVal.fin s c2 e2) = true := by
  rw [dEq_true_iff]
  simp only [dRatVal]
  cases s
  · simp only [sInt_false, Int.cast_natCast]
    exact h
  · simp only [sInt_true, Int.cast_neg, Int.cast_natCast, neg_mul]
    rw [h]

/-- C5 counterexample: the undefined value is a valid MoneyValue (it is
the default construction), yet `NaN + 0` returns the defined zero, which
is not `==`-equal to NaN - so `v + 0 == v` fails at `v = MoneyInEUR('NaN')`,
and likewise for `0 + v`. -/
theorem c5_nan_plus_zero_counterexample :
    (moneyAdd eurNaN (Operand.int 0)).map (fun r => moneyEq r eurNaN)
      = Except.ok false ∧
    (moneyRadd eurNaN (Operand.int 0)).map (fun r => moneyEq r eurNaN)
      = Except.ok false := by decide

/-- C5 amended: for every defined MoneyValue whose coefficient fits the
default context's 28-digit precision and whose exponent and adjusted
exponent lie inside the context's range (so that the context fix after
the addition cannot round away value or overflow - true of every amount a
shop ever handles), `v + 0 == v` and `0 + v == v`; for the undefined
value, `v + 0` is the defined zero instead. -/
theorem c5_add_zero_identity (ty : MoneyType) (s : Bool) (c : Nat) (e : Int)
    (h1 : nDigits c ≤ prec) (h2 : Etiny ≤ e)
    (h3 : (nDigits c : Int) + e - 1 ≤ Emax) :
    (moneyAdd ⟨ty, DecVal.fin s c e⟩ (Operand.int 0)).map
        (fun r => moneyEq r ⟨ty, DecVal.fin s c e⟩) = Except.ok true ∧
    (moneyRadd ⟨ty, DecVal.fin s c e⟩ (Operand.int 0)).map
        (fun r => moneyEq r ⟨ty, DecVal.fin s c e⟩) = Except.ok true := by
  have hmain : (moneyAdd ⟨ty, DecVal.fin s c e⟩ (Operand.int 0)).map
      (fun r => moneyEq r ⟨ty, DecVal.fin s c e⟩) = Except.ok true := by
    by_cases hc : c = 0
    · subst hc
      have hze : exactAdd s 0 e false 0 0 = (false, 0, min e 0) := by
        simp [exactAdd, sInt]
      have hfix : dFix false 0 (min e 0) = Except.ok (DecVal.fin false 0 (min e 0)) :=
        dFix_noop (by rw [nDigits_zero]; rw [prec_eq]; omega) (by rw [Etiny_eq] at *; omega)
          (by rw [nDigits_zero]; rw [Emax_eq] at *; push_cast; omega)
      simp [moneyAdd, assert_addable, DecVal.isNan, dAdd, Bind.bind, Except.bind, Pure.pure, Except.pure,
        Functor.map, Except.map, hze, hfix, moneyEq, dEq_zeros]
    · have hezr := exactAdd_zero_right s c e false 0 hc
      by_cases he : e ≤ 0
      · have hmin : min e 0 = e := min_eq_left he
        rw [hmin] at hezr
        have hcoeff : c * 10 ^ (e - e).toNat = c := by simp
        rw [hcoeff] at hezr
        have hfix : dFix s c e = Except.ok (DecVal.fin s c e) := dFix_noop h1 h2 h3
        simp [moneyAdd, assert_addable, DecVal.isNan, dAdd, Bind.bind, Except.bind, Pure.pure, Except.pure,
          Functor.map, Except.map, hezr, hfix, moneyEq, dEq_refl_fin]
      · push_neg at he
        have hmin : min e 0 = 0 := min_eq_right (le_of_lt he)
        rw [hmin] at hezr
        have hcoeff : (e - (0 : Int)).toNat = e.toNat := by simp
        rw [hcoeff] at hezr
        obtain ⟨c2, e2, hfix, he2, hc2, hval⟩ :=
          dFix_pow_exact (s := s) (e := 0) e.toNat hc h1 (by rw [Etiny_eq]; omega)
            (by push_cast [Int.toNat_of_nonneg (le_of_lt he)]; omega)
        have heqv : dEq (DecVal.fin s c2 e2) (DecVal.fin s c e) = true := by
          apply dEq_of_val_eq
          rw [hval]
          congr 1
          push_cast [Int.toNat_of_nonneg (le_of_lt he)]
          ring_nf
        simp [moneyAdd, assert_addable, DecVal.isNan, dAdd, Bind.bind, Except.bind, Pure.pure, Except.pure,
          Functor.map, Except.map, hezr, hfix, moneyEq, heqv]
  exact ⟨hmain, hmain⟩

/-- C5 amended witness at `MoneyInEUR('12.34')`. -/
theorem c5_add_zero_identity_witness :
    (moneyAdd ⟨eurTy, DecVal.fin false 1234 (-2)⟩ (Operand.int 0)).map
        (fun r => moneyEq r ⟨eurTy, DecVal.fin false 1234 (-2)⟩) = Except.ok true ∧
    (moneyRadd ⟨eurTy, DecVal.fin false 1234 (-2)⟩ (Operand.int 0)).map
        (fun r => moneyEq r ⟨eurTy, DecVal.fin false 1234 (-2)⟩) = Except.ok true := by
  have hd : nDigits 1234 ≤ prec := by
    have := nDigits_le_of_lt_pow (c := 1234) (k := 4) (by norm_num) (by norm_num)
    rw [prec_eq]
    omega
  exact c5_add_zero_identity eurTy false 1234 (-2) hd (by rw [Etiny_eq]; omega)
    (by have := nDigits_le_of_lt_pow (c := 1234) (k := 4) (by norm_num) (by norm_num)
        rw [Emax_eq]
        omega)

/-! ### Claim C6 -/

/-- A finite amount satisfying the default context's representation
bounds: at most 28 coefficient digits, exponent at least Etiny, adjusted
exponent at most Emax (NaN is unconstrained). -/
def DecBounded : DecVal → Prop
  | DecVal.fin _ c e => nDigits c ≤ prec ∧ Etiny ≤ e ∧ (nDigits c : Int) + e - 1 ≤ Emax
  | DecVal.nan => True

instance (d : DecVal) : Decidable (DecBounded d) :=
  match d with
  | DecVal.fin _ _ _ => inferInstanceAs (Decidable (_ ∧ _ ∧ _))
  | DecVal.nan => inferInstanceAs (Decidable True)

theorem dFix_zero (s : Bool) (e : Int) :
    dFix s 0 e = Except.ok (DecVal.fin s 0 (min (max e Etiny) Emax)) := by
  simp [dFix]

/-- Both computations being one and the same fix-then-wrap pipeline, the
outcome comparison succeeds. -/
theorem exceptMoneyEq_fix_self (ty : MoneyType) (s : Bool) (c : Nat) (e : Int) :
    exceptMoneyEq ((dFix s c e).bind (fun amt => Except.ok ⟨ty, amt⟩))
      ((dFix s c e).bind (fun amt => Except.ok ⟨ty, amt⟩)) = true := by
  rcases hz : dFix s c e with z | d
  · simp [Except.bind, exceptMoneyEq]
  · obtain ⟨s2, c2, e2, rfl⟩ := dFix_shape hz
    simp [Except.bind, exceptMoneyEq, moneyEq, dEq_refl_fin]

/-- C6 counterexample: with `a = MoneyInEUR('NaN')` and `b = MoneyInEUR('1')`,
`a - b` is the undefined value (the `__sub__` path has no NaN guard on
`self`, so `Decimal.__add__` propagates the NaN), while `a + (-b)` is
`-1` EUR (`__add__` treats the NaN `self` as absorbing), so the two
disagree and are not `==`-equal. -/
theorem c6_sub_neg_nan_counterexample :
    exceptMoneyEq (moneySub eurNaN (Operand.money eurOne))
      ((moneyNeg eurOne).bind (fun nb => moneyAdd eurNaN (Operand.money nb))) = false ∧
    (moneySub eurNaN (Operand.money eurOne)).map (fun r => r.amount.isNan)
      = Except.ok true ∧
    ((moneyNeg eurOne).bind (fun nb => moneyAdd eurNaN (Operand.money nb))).map
      (fun r => moneyEq r ⟨eurTy, DecVal.fin true 1 0⟩) = Except.ok true := by
  refine ⟨by decide, by decide, by decide⟩

/-- C6 amended: for same-currency operands with `a` defined (any
representation) and `b` within the default context's representation
bounds, `a - b` and `a + (-b)` produce identical outcomes: the same
error if the context fix fails, and otherwise values that are `==`-equal
(they can differ only in the sign of a zero).  When `a` is undefined the
two sides disagree: `a - b` is undefined while `a + (-b)` equals `-b`. -/
theorem c6_sub_is_add_neg (a b : MoneyValue) (sa : Bool) (ca : Nat) (ea : Int)
    (hcode : a.ty.currency_code = b.ty.currency_code)
    (ha : a.amount = DecVal.fin sa ca ea)
    (hb : DecBounded b.amount) :
    exceptMoneyEq (moneySub a (Operand.money b))
      ((moneyNeg b).bind (fun nb => moneyAdd a (Operand.money nb))) = true := by
  obtain ⟨ta, da⟩ := a
  obtain ⟨tb, db⟩ := b
  simp only at ha hcode
  subst ha
  cases db with
  | nan =>
    -- sub path: the NaN operand becomes +0, then copy_negate makes it -0;
    -- add path: -NaN is NaN, which the operand check again turns into +0
    have hsub : moneySub ⟨ta, DecVal.fin sa ca ea⟩ (Operand.money ⟨tb, DecVal.nan⟩)
        = (dAdd (DecVal.fin sa ca ea) (DecVal.fin true 0 0)).bind
            (fun amt => Except.ok ⟨ta, amt⟩) := by
      simp [moneySub, assert_addable, hcode, DecVal.isNan, dCopyNegate,
        Bind.bind, Except.bind, Pure.pure, Except.pure]
    have hadd : (moneyNeg ⟨tb, DecVal.nan⟩).bind
          (fun nb => moneyAdd ⟨ta, DecVal.fin sa ca ea⟩ (Operand.money nb))
        = (dAdd (DecVal.fin sa ca ea) (DecVal.fin false 0 0)).bind
            (fun amt => Except.ok ⟨ta, amt⟩) := by
      simp [moneyNeg, moneyAdd, dNeg, assert_addable, hcode, DecVal.isNan,
        Bind.bind, Except.bind, Pure.pure, Except.pure]
    rw [hsub, hadd]
    by_cases hca : ca = 0
    · subst hca
      have h1 : exactAdd sa 0 ea true 0 0 = (sa, 0, min ea 0) := by
        simp [exactAdd, sInt]
      have h2 : exactAdd sa 0 ea false 0 0 = (false, 0, min ea 0) := by
        simp [exactAdd, sInt]
      simp [dAdd, h1, h2, dFix_zero, Except.bind, exceptMoneyEq, moneyEq, dEq_zeros]
    · rw [show dAdd (DecVal.fin sa ca ea) (DecVal.fin true 0 0)
            = dFix sa (ca * 10 ^ (ea - min ea 0).toNat) (min ea 0) by
          simp [dAdd, exactAdd_zero_right sa ca ea true 0 hca],
        show dAdd (DecVal.fin sa ca ea) (DecVal.fin false 0 0)
            = dFix sa (ca * 10 ^ (ea - min ea 0).toNat) (min ea 0) by
          simp [dAdd, exactAdd_zero_right sa ca ea false 0 hca]]
      exact exceptMoneyEq_fix_self ta sa _ _
  | fin sb cb eb =>
    obtain ⟨hb1, hb2, hb3⟩ := hb
    by_cases hcb : cb = 0
    · subst hcb
      have hclamp : min (max eb Etiny) Emax = eb := by
        rw [nDigits_zero] at hb3
        rw [max_eq_left hb2, min_eq_left (by omega)]
      have hsub : moneySub ⟨ta, DecVal.fin sa ca ea⟩ (Operand.money ⟨tb, DecVal.fin sb 0 eb⟩)
          = (dAdd (DecVal.fin sa ca ea) (DecVal.fin (!sb) 0 eb)).bind
              (fun amt => Except.ok ⟨ta, amt⟩) := by
        simp [moneySub, assert_addable, hcode, DecVal.isNan, dCopyNegate,
          Bind.bind, Except.bind, Pure.pure, Except.pure]
      have hadd : (moneyNeg ⟨tb, DecVal.fin sb 0 eb⟩).bind
            (fun nb => moneyAdd ⟨ta, DecVal.fin sa ca ea⟩ (Operand.money nb))
          = (dAdd (DecVal.fin sa ca ea) (DecVal.fin false 0 eb)).bind
              (fun amt => Except.ok ⟨ta, amt⟩) := by
        simp [moneyNeg, moneyAdd, dNeg, dFix_zero, hclamp, assert_addable, hcode,
          DecVal.isNan, Bind.bind, Except.bind, Pure.pure, Except.pure]
      rw [hsub, hadd]
      by_cases hca : ca = 0
      · subst hca
        have h1 : exactAdd sa 0 ea (!sb) 0 eb = (sa && !sb, 0, min ea eb) := by
          simp [exactAdd, sInt]
        have h2 : exactAdd sa 0 ea false 0 eb = (false, 0, min ea eb) := by
          simp [exactAdd, sInt]
        simp [dAdd, h1, h2, dFix_zero, Except.bind, exceptMoneyEq, moneyEq, dEq_zeros]
      · rw [show dAdd (DecVal.fin sa ca ea) (DecVal.fin (!sb) 0 eb)
              = dFix sa (ca * 10 ^ (ea - min ea eb).toNat) (min ea eb) by
            simp [dAdd, exactAdd_zero_right sa ca ea (!sb) eb hca],
          show dAdd (DecVal.fin sa ca ea) (DecVal.fin false 0 eb)
              = dFix sa (ca * 10 ^ (ea - min ea eb).toNat) (min ea eb) by
            simp [dAdd, exactAdd_zero_right sa ca ea false eb hca]]
        exact exceptMoneyEq_fix_self ta sa _ _
    · have hneg : dNeg (DecVal.fin sb cb eb) = Except.ok (DecVal.fin (!sb) cb eb) := by
        rw [dNeg, if_neg hcb]
        exact dFix_noop hb1 hb2 hb3
      have hsub : moneySub ⟨ta, DecVal.fin sa ca ea⟩ (Operand.money ⟨tb, DecVal.fin sb cb eb⟩)
          = (dAdd (DecVal.fin sa ca ea) (DecVal.fin (!sb) cb eb)).bind
              (fun amt => Except.ok ⟨ta, amt⟩) := by
        simp [moneySub, assert_addable, hcode, DecVal.isNan, dCopyNegate,
          Bind.bind, Except.bind, Pure.pure, Except.pure]
      have hadd : (moneyNeg ⟨tb, DecVal.fin sb cb eb⟩).bind
            (fun nb => moneyAdd ⟨ta, DecVal.fin sa ca ea⟩ (Operand.money nb))
          = (dAdd (DecVal.fin sa ca ea) (DecVal.fin (!sb) cb eb)).bind
              (fun amt => Except.ok ⟨ta, amt⟩) := by
        simp [moneyNeg, moneyAdd, hneg, assert_addable, hcode, DecVal.isNan,
          Bind.bind, Except.bind, Pure.pure, Except.pure]
      rw [hsub, hadd]
      rcases hz : dAdd (DecVal.fin sa ca ea) (DecVal.fin (!sb) cb eb) with z | d
      · simp [Except.bind, exceptMoneyEq]
      · obtain ⟨s2, c2, e2, rfl⟩ := dFix_shape (by simpa [dAdd] using hz)
        simp [Except.bind, exceptMoneyEq, moneyEq, dEq_refl_fin]

/-- C6 amended witness: EUR 12.34 minus EUR 1. -/
theorem c6_sub_is_add_neg_witness :
    exceptMoneyEq (moneySub ⟨eurTy, DecVal.fin false 1234 (-2)⟩ (Operand.money eurOne))
      ((moneyNeg eurOne).bind
        (fun nb => moneyAdd ⟨eurTy, DecVal.fin false 1234 (-2)⟩ (Operand.money nb)))
      = true :=
  c6_sub_is_add_neg ⟨eurTy, DecVal.fin false 1234 (-2)⟩ eurOne false 1234 (-2)
    rfl rfl (by decide)

/-! ### Claim C9 -/

/-- C9: `as_integer` is `int(as_decimal() * subunits)`; the product's
context fix can only strip trailing zeros introduced by the `10^digits`
factor (the quantized coefficient fits in 28 digits), so the result is
exactly the quantized amount scaled by `subunit_factor` and truncated -
no value is ever lost.  Stated for a money value whose currency is in the
table and whose `as_decimal()` succeeded (a defined amount); the
hypotheses on the quantized shape hold of every `quantize` output. -/
theorem c9_as_integer (v : MoneyValue) (entry : Nat × Nat) (sq : Bool) (cq : Nat)
    (hcur : CURRENCIES v.ty.currency_code = Option.some entry)
    (hmd : entry.2 ≤ prec)
    (hq : as_decimal v = Except.ok (DecVal.fin sq cq (-(entry.2 : Int))))
    (hdig : nDigits cq ≤ prec) :
    as_integer v = Except.ok (sInt sq cq) ∧
    ((sInt sq cq : ℤ) : ℚ)
      = dRatVal (DecVal.fin sq cq (-(entry.2 : Int))) * (10 : ℚ) ^ (entry.2 : ℕ) := by
  constructor
  · have hstep : as_integer v
        = (dMul (DecVal.fin sq cq (-(entry.2 : Int)))
            (DecVal.fin false (10 ^ entry.2) 0)).bind dTrunc := by
      simp [as_integer, hq, subunits, hcur, Bind.bind, Except.bind]
    rw [hstep]
    by_cases hc : cq = 0
    · subst hc
      have hmul : dMul (DecVal.fin sq 0 (-(entry.2 : Int)))
          (DecVal.fin false (10 ^ entry.2) 0)
          = Except.ok (DecVal.fin sq 0 (-(entry.2 : Int))) := by
        have hz : (0 : Nat) * 10 ^ entry.2 = 0 := by ring
        rw [dMul, hz, dFix_zero]
        congr 2
        · exact Bool.xor_false sq
        · rw [Etiny_eq, Emax_eq] at *
          rw [prec_eq] at hmd
          rw [show (-(entry.2 : Int) + 0) = -(entry.2 : Int) by ring]
          rw [max_eq_left (by omega), min_eq_left (by omega)]
      rw [hmul]
      simp [Except.bind, dTrunc, sInt]
    · have hxor : xor sq false = sq := Bool.xor_false sq
      obtain ⟨c2, e2, hfix, he2, hc2, hval⟩ :=
        dFix_pow_exact (s := sq) (e := -(entry.2 : Int)) entry.2 hc hdig
          (by rw [Etiny_eq]; rw [prec_eq] at hmd; omega)
          (by rw [Emax_eq]; rw [prec_eq] at *; omega)
      have hmul : dMul (DecVal.fin sq cq (-(entry.2 : Int)))
          (DecVal.fin false (10 ^ entry.2) 0)
          = Except.ok (DecVal.fin sq c2 e2) := by
        rw [dMul, hxor]
        rw [show (-(entry.2 : Int) + 0) = -(entry.2 : Int) by ring]
        exact hfix
      have he20 : e2 ≤ 0 := by omega
      have hvalq : (c2 : ℚ) * (10 : ℚ) ^ e2 = (cq : ℚ) := by
        rw [hval]
        rw [show (-(entry.2 : Int) + (entry.2 : ℕ)) = 0 by omega]
        norm_num
      have hnat : c2 = cq * 10 ^ (-e2).toNat := by
        have hneg : e2 = -(((-e2).toNat : ℕ) : ℤ) := by omega
        rw [hneg, zpow_neg, zpow_natCast] at hvalq
        have h10 : ((10 : ℚ) ^ ((-e2).toNat : ℕ)) ≠ 0 := by positivity
        field_simp at hvalq
        exact_mod_cast hvalq
      rw [hmul]
      simp only [Except.bind, dTrunc]
      by_cases hz : (0 : Int) ≤ e2
      · have he2z : e2 = 0 := by omega
        rw [if_pos hz]
        subst he2z
        simp only [Int.toNat_zero, pow_zero, mul_one]
        rw [hnat]
        norm_num
      · rw [if_neg hz]
        rw [hnat, Nat.mul_div_cancel _ (by positivity)]
  · rw [dRatVal, mul_assoc]
    have hexp : (10 : ℚ) ^ (-(entry.2 : Int)) * (10 : ℚ) ^ (entry.2 : ℕ) = 1 := by
      rw [← zpow_natCast (10 : ℚ) entry.2, ← zpow_add₀ (by norm_num : (10 : ℚ) ≠ 0)]
      norm_num
    rw [hexp, mul_one]

/-- C9 witness: EUR (2 minor digits), amount "12.34", yields 1234. -/
theorem c9_as_integer_witness :
    (as_integer ⟨eurTy, DecVal.fin false 1234 (-2)⟩ = Except.ok (sInt false 1234) ∧
      ((sInt false 1234 : ℤ) : ℚ)
        = dRatVal (DecVal.fin false 1234 (-(((978, 2) : Nat × Nat).2 : Int)))
            * (10 : ℚ) ^ ((((978, 2) : Nat × Nat).2 : ℕ))) ∧
    sInt false 1234 = 1234 :=
  ⟨c9_as_integer ⟨eurTy, DecVal.fin false 1234 (-2)⟩ (978, 2) false 1234
      (by decide) (by decide) (by decide) (by decide),
    by decide⟩

/-! ### Claim C4: string round-trip support -/

theorem digitChar_facts : ∀ d, d < 10 →
    charToDigit (digitChar d) = d ∧ (digitChar d).isDigit = true ∧
    digitChar d ≠ '-' ∧ digitChar d ≠ '+' ∧ digitChar d ≠ 'N' ∧
    digitChar d ≠ 'n' ∧ digitChar d ≠ '.' := by decide

theorem readSign_cons {ch : Char} {l : List Char} (h1 : ch ≠ '-') (h2 : ch ≠ '+') :
    readSign (ch :: l) = (false, ch :: l) := by
  simp [readSign, h1, h2]

theorem readSign_neg (l : List Char) : readSign ('-' :: l) = (true, l) := by
  simp [readSign]

theorem canonDigits_ne_nil (c : Nat) : canonDigits c ≠ [] := by
  rw [canonDigits_eq]
  by_cases hc : c = 0
  · simp [hc]
  · rw [if_neg hc]
    simp only [ne_eq, List.reverse_eq_nil_iff]
    exact Nat.digits_ne_nil_iff_ne_zero.mpr hc

theorem canonDigits_lt (c : Nat) : ∀ d ∈ canonDigits c, d < 10 := by
  rw [canonDigits_eq]
  by_cases hc : c = 0
  · simp [hc]
  · rw [if_neg hc]
    intro d hd
    exact Nat.digits_lt_base (by norm_num) (List.mem_reverse.mp hd)

theorem ofDigits_reverse_canonDigits (c : Nat) :
    Nat.ofDigits 10 (canonDigits c).reverse = c := by
  rw [canonDigits_eq]
  by_cases hc : c = 0
  · simp [hc, Nat.ofDigits]
  · rw [if_neg hc, List.reverse_reverse, Nat.ofDigits_digits]

theorem canonDigits_length (c : Nat) : (canonDigits c).length = nDigits c := by
  rw [canonDigits_eq]
  by_cases hc : c = 0
  · simp [hc, nDigits_zero]
  · rw [if_neg hc, List.length_reverse,
      Nat.digits_len 10 c (by norm_num) hc, nDigits_eq_log]

theorem takeWhile_all {p : Char → Bool} {l : List Char} (h : ∀ x ∈ l, p x = true) :
    l.takeWhile p = l ∧ l.dropWhile p = [] := by
  induction l with
  | nil => exact ⟨rfl, rfl⟩
  | cons a t ih =>
    have ha : p a = true := h a (List.mem_cons_self a t)
    have ht := ih (fun x hx => h x (List.mem_cons_of_mem a hx))
    rw [List.takeWhile_cons, List.dropWhile_cons, if_pos ha, if_pos ha, ht.1, ht.2]
    exact ⟨rfl, rfl⟩

theorem takeWhile_append_all {p : Char → Bool} {l r : List Char}
    (h : ∀ x ∈ l, p x = true) :
    (l ++ r).takeWhile p = l ++ r.takeWhile p ∧
    (l ++ r).dropWhile p = r.dropWhile p := by
  induction l with
  | nil => exact ⟨rfl, rfl⟩
  | cons a t ih =>
    have ha : p a = true := h a (List.mem_cons_self a t)
    have ht := ih (fun x hx => h x (List.mem_cons_of_mem a hx))
    rw [List.cons_append, List.takeWhile_cons, List.dropWhile_cons,
      if_pos ha, if_pos ha, ht.1, ht.2]
    exact ⟨rfl, rfl⟩

theorem map_charToDigit_digitChar {l : List Nat} (h : ∀ d ∈ l, d < 10) :
    (l.map digitChar).map charToDigit = l := by
  induction l with
  | nil => rfl
  | cons a t ih =>
    have ha := (digitChar_facts a (h a (List.mem_cons_self a t))).1
    rw [List.map_cons, List.map_cons, ha,
      ih (fun d hd => h d (List.mem_cons_of_mem a hd))]

theorem ofDigits_zeros (k : Nat) : Nat.ofDigits 10 (List.replicate k 0) = 0 := by
  induction k with
  | zero => rfl
  | succ n ih => simp [List.replicate_succ, Nat.ofDigits, ih]

theorem not_special_of_digit {ch : Char} (h : ch.isDigit = true) :
    ch ≠ '-' ∧ ch ≠ '+' ∧ ch ≠ 'N' ∧ ch ≠ 'n' := by
  refine ⟨?_, ?_, ?_, ?_⟩ <;> (rintro rfl; exact absurd h (by decide))

/-- Parsing a signed numeric string with a decimal point: the sign, the
concatenated digits and minus-the-fraction-length come straight back. -/
theorem decParseChars_dotted (s : Bool) (ip fp : List Char)
    (hip : ∀ x ∈ ip, x.isDigit = true) (hfp : ∀ x ∈ fp, x.isDigit = true)
    (hne : ip ≠ []) :
    decParseChars ((if s then ['-'] else []) ++ (ip ++ '.' :: fp))
      = Option.some (DecVal.fin s
          (Nat.ofDigits 10 (((ip ++ fp).map charToDigit).reverse))
          (0 - fp.length)) := by
  obtain ⟨c0, l0, rfl⟩ : ∃ c0 l0, ip = c0 :: l0 := by
    rcases ip with _ | ⟨c0, l0⟩
    · exact absurd rfl hne
    · exact ⟨c0, l0, rfl⟩
  have hc0 : c0.isDigit = true := hip c0 (List.mem_cons_self c0 l0)
  have hns := not_special_of_digit hc0
  have hsign : readSign ((if s then ['-'] else []) ++ ((c0 :: l0) ++ '.' :: fp))
      = (s, (c0 :: l0) ++ '.' :: fp) := by
    cases s
    · simpa using readSign_cons hns.1 hns.2.1
    · simpa using readSign_neg _
  have htw := takeWhile_append_all (l := c0 :: l0) (r := '.' :: fp) hip
  have htw2 : List.takeWhile Char.isDigit ('.' :: fp) = [] := by
    rw [List.takeWhile_cons, if_neg (by decide)]
  have htw3 : List.dropWhile Char.isDigit ('.' :: fp) = '.' :: fp := by
    rw [List.dropWhile_cons, if_neg (by decide)]
  have hfw := takeWhile_all (l := fp) hfp
  simp only [decParseChars, hsign]
  rw [if_neg (by simp [hns.2.2.1, hns.2.2.2])]
  simp only [htw.1, htw.2, htw2, htw3, List.append_nil, if_true]
  simp only [hfw.1, hfw.2]
  rw [if_neg (by simp)]

/-- Parsing a signed digit string without a point: exponent zero. -/
theorem decParseChars_undotted (s : Bool) (ip : List Char)
    (hip : ∀ x ∈ ip, x.isDigit = true) (hne : ip ≠ []) :
    decParseChars ((if s then ['-'] else []) ++ ip)
      = Option.some (DecVal.fin s
          (Nat.ofDigits 10 ((ip.map charToDigit).reverse)) 0) := by
  obtain ⟨c0, l0, rfl⟩ : ∃ c0 l0, ip = c0 :: l0 := by
    rcases ip with _ | ⟨c0, l0⟩
    · exact absurd rfl hne
    · exact ⟨c0, l0, rfl⟩
  have hc0 : c0.isDigit = true := hip c0 (List.mem_cons_self c0 l0)
  have hns := not_special_of_digit hc0
  have hsign : readSign ((if s then ['-'] else []) ++ (c0 :: l0)) = (s, c0 :: l0) := by
    cases s
    · simpa using readSign_cons hns.1 hns.2.1
    · simpa using readSign_neg _
  have htw := takeWhile_all (l := c0 :: l0) hip
  simp only [decParseChars, hsign]
  rw [if_neg (by simp [hns.2.2.1, hns.2.2.2])]
  simp only [htw.1, htw.2]
  rw [if_neg (by simp)]
  simp

/-- The string/parse round trip for the plain-form values `as_decimal`
produces: exponent at most 0 and adjusted exponent above -7, so
`Decimal.__str__` uses positional format, which `decimal._parser` inverts
exactly. -/
theorem decParse_dStr {s : Bool} {c : Nat} {e : Int}
    (he : e ≤ 0) (hld : -6 < e + (nDigits c : Int)) :
    decParse (dStr (DecVal.fin s c e)) = Option.some (DecVal.fin s c e) := by
  have hlt := canonDigits_lt c
  have hLdig : ∀ x ∈ (canonDigits c).map digitChar, x.isDigit = true := by
    intro x hx
    obtain ⟨d, hd, rfl⟩ := List.mem_map.mp hx
    exact (digitChar_facts d (hlt d hd)).2.1
  have hlen : ((canonDigits c).map digitChar).length = nDigits c := by
    rw [List.length_map, canonDigits_length]
  have hnd1 := nDigits_pos c
  have h0dig : charToDigit '0' = 0 := by decide
  show decParseChars (decToChars (DecVal.fin s c e)) = Option.some (DecVal.fin s c e)
  by_cases hA : e + (nDigits c : Int) ≤ 0
  · -- the point lands left of all digits: "0." ++ zeros ++ digits
    have hchars : decToChars (DecVal.fin s c e)
        = (if s then ['-'] else []) ++ (['0'] ++ '.' ::
            (List.replicate (-(e + (nDigits c : Int))).toNat '0'
              ++ (canonDigits c).map digitChar)) := by
      have hcond : e ≤ 0 ∧ -6 < e + (nDigits c : Int) := ⟨he, hld⟩
      simp only [decToChars, hlen, if_pos hcond, if_pos hA]
      simp
    have hT : ∀ x ∈ List.replicate (-(e + (nDigits c : Int))).toNat '0'
        ++ (canonDigits c).map digitChar, x.isDigit = true := by
      intro x hx
      rcases List.mem_append.mp hx with h | h
      · rw [List.eq_of_mem_replicate h]; decide
      · exact hLdig x h
    rw [hchars, decParseChars_dotted s ['0'] _
      (by intro x hx; simp only [List.mem_singleton] at hx; subst hx; decide)
      hT (by simp)]
    have hcoeff : Nat.ofDigits 10
        ((List.map charToDigit (['0'] ++
          (List.replicate (-(e + (nDigits c : Int))).toNat '0'
            ++ (canonDigits c).map digitChar))).reverse) = c := by
      rw [List.singleton_append, List.map_cons, h0dig, List.map_append,
        List.map_replicate, h0dig, map_charToDigit_digitChar hlt,
        List.reverse_cons, List.reverse_append, List.reverse_replicate,
        List.append_assoc, ← List.replicate_succ', Nat.ofDigits_append,
        ofDigits_reverse_canonDigits, ofDigits_zeros]
      ring
    have hexp : (0 : Int) - ((List.replicate (-(e + (nDigits c : Int))).toNat '0'
        ++ (canonDigits c).map digitChar).length : Int) = e := by
      rw [List.length_append, List.length_replicate, hlen]
      push_cast
      omega
    rw [hcoeff, hexp]
  · by_cases hB : (nDigits c : Int) ≤ e + nDigits c
    · -- no fractional digits: exponent is zero, the bare digit string
      have he0 : e = 0 := by omega
      subst he0
      have hchars : decToChars (DecVal.fin s c 0)
          = (if s then ['-'] else []) ++ (canonDigits c).map digitChar := by
        have hcond : (0 : Int) ≤ 0 ∧ -6 < 0 + (nDigits c : Int) := ⟨le_refl 0, by omega⟩
        simp only [decToChars, hlen, if_pos hcond,
          if_neg (show ¬ (0 + (nDigits c : Int) ≤ 0) by omega), if_pos hB]
        simp
      rw [hchars, decParseChars_undotted s _ hLdig
        (by simp [canonDigits_ne_nil c])]
      rw [map_charToDigit_digitChar hlt, ofDigits_reverse_canonDigits]
    · -- the point lands inside the digit string
      have heneg : e < 0 := by omega
      have hdp1 : 1 ≤ (e + (nDigits c : Int)).toNat := by omega
      have hdplen : (e + (nDigits c : Int)).toNat < nDigits c := by omega
      have hchars : decToChars (DecVal.fin s c e)
          = (if s then ['-'] else []) ++
            (((canonDigits c).map digitChar).take (e + (nDigits c : Int)).toNat
              ++ '.' :: ((canonDigits c).map digitChar).drop
                  (e + (nDigits c : Int)).toNat) := by
        have hcond : e ≤ 0 ∧ -6 < e + (nDigits c : Int) := ⟨he, hld⟩
        simp only [decToChars, hlen, if_pos hcond, if_neg hA, if_neg hB]
        simp
      have hip : ∀ x ∈ ((canonDigits c).map digitChar).take
          (e + (nDigits c : Int)).toNat, x.isDigit = true :=
        fun x hx => hLdig x (List.take_subset _ _ hx)
      have hfp : ∀ x ∈ ((canonDigits c).map digitChar).drop
          (e + (nDigits c : Int)).toNat, x.isDigit = true :=
        fun x hx => hLdig x (List.drop_subset _ _ hx)
      have hne : ((canonDigits c).map digitChar).take
          (e + (nDigits c : Int)).toNat ≠ [] := by
        have hpos : 0 < (((canonDigits c).map digitChar).take
            (e + (nDigits c : Int)).toNat).length := by
          rw [List.length_take, hlen]
          omega
        exact List.ne_nil_of_length_pos hpos
      rw [hchars, decParseChars_dotted s _ _ hip hfp hne]
      rw [List.take_append_drop, map_charToDigit_digitChar hlt,
        ofDigits_reverse_canonDigits]
      have hexp : (0 : Int) - ((((canonDigits c).map digitChar).drop
          (e + (nDigits c : Int)).toNat).length : Int) = e := by
        rw [List.length_drop, hlen]
        omega
      rw [hexp]

/-- C4 counterexample: for the undefined value (the default construction),
`as_decimal()` is NaN, its string is "NaN", the reconstruction parses back
to NaN - and `Decimal.__eq__` on NaN is False, so the round trip does not
reproduce an equal value. -/
theorem c4_roundtrip_nan_counterexample :
    (do
      let q ← as_decimal eurNaN
      let p ← MoneyMaker (Option.some eurNaN.ty.currency_code) 1
      let w ← new_money p.1 (Source.strV (dStr q))
      pure (moneyEq w eurNaN)) = Except.ok false := by decide

/-- C4 amended: the serialization round trip holds for every MoneyValue
whose amount is defined and unchanged by quantization: if `as_decimal()`
returns a finite quantized amount (its exponent is the currency's cents
exponent, between -6 and 0 for the table's at-most-6 minor digits) that is
`==`-equal to the original amount, then reconstructing through
`type_for(v.currency).construct(str(v.as_decimal()))` yields a value
`==`-equal to `v`.  Values carrying more fractional digits than the
currency's minor digits are changed by the quantization, and the
undefined value never equals its reconstruction. -/
theorem c4_roundtrip_defined (v : MoneyValue) (sq : Bool) (cq : Nat) (eq1 : Int)
    (ty2 : MoneyType) (n n2 : Nat)
    (_hq : as_decimal v = Except.ok (DecVal.fin sq cq eq1))
    (he1 : -6 ≤ eq1) (he2 : eq1 ≤ 0)
    (heq : dEq (DecVal.fin sq cq eq1) v.amount = true)
    (_hmk : MoneyMaker (Option.some v.ty.currency_code) n = Except.ok (ty2, n2)) :
    (new_money ty2 (Source.strV (dStr (DecVal.fin sq cq eq1)))).map
        (fun w => moneyEq w v) = Except.ok true := by
  have hrt := decParse_dStr (s := sq) (c := cq) (e := eq1) he2
    (by have := nDigits_pos cq; omega)
  simp [new_money, hrt, Except.map, moneyEq, heq]

/-- C4 amended witness: EUR '12.34' round-trips through "12.34". -/
theorem c4_roundtrip_defined_witness :
    (new_money eurTyB (Source.strV (dStr (DecVal.fin false 1234 (-2))))).map
        (fun w => moneyEq w ⟨eurTy, DecVal.fin false 1234 (-2)⟩) = Except.ok true :=
  c4_roundtrip_defined ⟨eurTy, DecVal.fin false 1234 (-2)⟩ false 1234 (-2) eurTyB 1 2
    (by decide) (by decide) (by decide) (by decide) (by decide)

end ShopMoney
